import Mathlib

/-!
Verification development for the decode-and-derive pipeline of the Sky
repository (src/App.tsx).  The pipeline function decodeAndCalculate
(App.tsx lines 786-869) and the simulation handler handlePotionDrink
(App.tsx lines 236-251) are shallowly embedded below.

Modelling conventions:
- JavaScript strings are modelled as Lean String / List Char; the
  JavaScript number type (IEEE float64) is modelled by exact rationals,
  so the algebra of the formula is exact rather than rounded.
- The wall clock read by new Date().getTime() is passed in as an
  explicit integer parameter, used only at result assembly.
- Math.random() is passed in as an explicit rational parameter u with
  0 <= u < 1.
- atob is modelled by the WHATWG forgiving-base64 decode it implements:
  strip ASCII whitespace, strip up to two trailing padding characters
  when the length is a multiple of 4, then fail on a length congruent
  to 1 mod 4 or on any character outside the standard alphabet.
- The regular expressions of the source are modelled by deterministic
  scanners with the same leftmost-match semantics; the dot of the
  tier-3 regex only matches characters that are not line terminators,
  as in JavaScript.
- The source maps every failure site to one generic localized message;
  following the taxonomy of the design, each distinct failure site is
  given its own ErrorKind constructor.
-/

set_option maxRecDepth 10000

attribute [local semireducible] Rat.add Rat.sub Rat.mul Rat.inv Rat.ofScientific

/-- Error taxonomy: one constructor per distinct failure site of the
pipeline, plus the precondition failure of the simulation handler. -/
inductive ErrorKind where
  | anchorNotFound
  | decodeFailure
  | heightKeyNotFound
  | heightValueNotFound
  | scaleKeyNotFound
  | scaleValueNotFound
  | preconditionError
deriving DecidableEq, Repr

/-- App.tsx lines 772-784: the success record of decodeAndCalculate.
The nested json object is flattened into the two raw fields. -/
structure CalculationResult where
  current : ℚ
  tallest : ℚ
  shortest : ℚ
  scale : ℚ
  timestamp : Int
  note : String
  height_raw : ℚ
  scale_raw : ℚ
deriving DecidableEq, Repr

/-- Value of a run of decimal digit characters, most significant first. -/
def digitsToNat (l : List Char) : Nat :=
  l.foldl (fun acc c => acc * 10 + (c.toNat - 48)) 0

/-- Powers of ten over the rationals, by plain recursion. -/
def qpow10 : Nat → ℚ
  | 0 => 1
  | n + 1 => 10 * qpow10 n

/-- Math.pow(10, e) for an integer exponent, modelled exactly. -/
def pow10 : Int → ℚ
  | Int.ofNat n => qpow10 n
  | Int.negSucc n => 1 / qpow10 (n + 1)

/-- parseFloat on a matched token: optional sign, integer digits,
fraction digits.  An empty digit list contributes zero. -/
def decToRat (sign : Bool) (ds fs : List Char) : ℚ :=
  let m : ℚ := (digitsToNat ds : ℚ) + (digitsToNat fs : ℚ) / qpow10 fs.length
  if sign then -m else m

/-- Consume an optional leading minus sign, as the regex fragment -?. -/
def splitSign (l : List Char) : Bool × List Char :=
  if l.head? = some '-' then (true, l.tail) else (false, l)

/-- First alternative of the height regex (App.tsx line 809):
-?\d*\.\d+ in deterministic form. -/
def altFrac (l : List Char) : Option ℚ :=
  if ((splitSign l).2.dropWhile Char.isDigit).head? = some '.' then
    if (((splitSign l).2.dropWhile Char.isDigit).tail.takeWhile Char.isDigit).isEmpty then none
    else some (decToRat (splitSign l).1 ((splitSign l).2.takeWhile Char.isDigit)
      (((splitSign l).2.dropWhile Char.isDigit).tail.takeWhile Char.isDigit))
  else none

/-- Second alternative of the height regex (App.tsx line 809):
-?\d+\.?\d* in deterministic form. -/
def altInt (l : List Char) : Option ℚ :=
  if ((splitSign l).2.takeWhile Char.isDigit).isEmpty then none
  else if ((splitSign l).2.dropWhile Char.isDigit).head? = some '.' then
    some (decToRat (splitSign l).1 ((splitSign l).2.takeWhile Char.isDigit)
      (((splitSign l).2.dropWhile Char.isDigit).tail.takeWhile Char.isDigit))
  else some (decToRat (splitSign l).1 ((splitSign l).2.takeWhile Char.isDigit) [])

/-- Match of the height value regex at one position: the alternation
tries the fractional alternative first, as the regex does. -/
def matchHeightAt (l : List Char) : Option ℚ :=
  match altFrac l with
  | some v => some v
  | none => altInt l

/-- Leftmost-match search: try the matcher at every position in order,
as a global regex search does. -/
def scanFor (f : List Char → Option ℚ) : List Char → Option ℚ
  | [] => f []
  | c :: rest =>
    match f (c :: rest) with
    | some v => some v
    | none => scanFor f rest

/-- The separator fragment [":]* shared by the two scale regexes. -/
def dropSeps (l : List Char) : List Char :=
  l.dropWhile (fun c => c == '"' || c == ':')

/-- Mantissa fragment -?\d+\.?\d* of the scientific regex: returns the
sign, integer digits, fraction digits and the rest of the input. -/
def sciMant (l : List Char) : Option (Bool × List Char × List Char × List Char) :=
  let sl := splitSign l
  let ds := sl.2.takeWhile Char.isDigit
  if ds.isEmpty then none
  else
    let l2 := sl.2.dropWhile Char.isDigit
    if l2.head? = some '.' then
      some (sl.1, ds, l2.tail.takeWhile Char.isDigit, l2.tail.dropWhile Char.isDigit)
    else some (sl.1, ds, [], l2)

/-- Match of the tier-1 scale regex (App.tsx line 823) at one position:
optional separators, a signed mantissa, e or E, a signed integer
exponent; the value is base times ten to the exponent (line 828). -/
def sciAt (l : List Char) : Option ℚ :=
  match sciMant (dropSeps l) with
  | none => none
  | some (sign, ds, fs, l3) =>
    if l3.head? = some 'e' ∨ l3.head? = some 'E' then
      let l4 := l3.tail
      let el :=
        if l4.head? = some '-' then (true, l4.tail)
        else if l4.head? = some '+' then (false, l4.tail)
        else (false, l4)
      let es := el.2.takeWhile Char.isDigit
      if es.isEmpty then none
      else
        some (decToRat sign ds fs *
          pow10 (if el.1 then -(digitsToNat es : Int) else (digitsToNat es : Int)))
    else none

/-- Match of the tier-2 scale regex (App.tsx line 830) at one position:
optional separators then a signed decimal containing a point. -/
def decAt (l : List Char) : Option ℚ :=
  altFrac (dropSeps l)

/-- Line terminators, the characters the JavaScript regex dot does not
match. -/
def isLineTerm (c : Char) : Bool :=
  c == '\n' || c == '\r' || c == '\u2028' || c == '\u2029'

/-- Value of the tier-3 capture \d{1,10} taken at a digit position:
up to ten digits of the run, divided by 1e9 (App.tsx lines 839-840). -/
def tier3Val (l : List Char) : ℚ :=
  (digitsToNat ((l.takeWhile Char.isDigit).take 10) : ℚ) / 1000000000

/-- Scan of the tier-3 regex ^.*?(\d{1,10}) over the window: the lazy
dot run stops the search at the first digit, and fails at a line
terminator, which the dot cannot match. -/
def tier3go : List Char → Option ℚ
  | [] => none
  | c :: rest =>
    if c.isDigit then some (tier3Val (c :: rest))
    else if isLineTerm c then none
    else tier3go rest

/-- Tier-3 scale fallback (App.tsx lines 834-840): restrict to the
first 30 characters, then run the anchored lazy search. -/
def tier3 (l : List Char) : Option ℚ :=
  tier3go (l.take 30)

/-- Declarative form of the tier-3 search: drop the leading characters
that are neither digits nor line terminators; succeed exactly when a
digit is reached. -/
def tier3Spec (l : List Char) : Option ℚ :=
  match (l.take 30).dropWhile (fun c => !c.isDigit && !isLineTerm c) with
  | [] => none
  | c :: rest => if c.isDigit then some (tier3Val (c :: rest)) else none

/-- Case-sensitive prefix test on character lists. -/
def startsAtEx : List Char → List Char → Bool
  | [], _ => true
  | _ :: _, [] => false
  | n :: ns, h :: hs => (h == n) && startsAtEx ns hs

/-- String.prototype.indexOf: index of the first occurrence of the
needle, if any. -/
def findSub (needle : List Char) : List Char → Option Nat
  | [] => if startsAtEx needle [] then some 0 else none
  | c :: rest =>
    if startsAtEx needle (c :: rest) then some 0
    else (findSub needle rest).map (· + 1)

/-- ASCII-case-insensitive prefix test; the needle is lowercase. -/
def startsAtCI : List Char → List Char → Bool
  | [], _ => true
  | _ :: _, [] => false
  | n :: ns, h :: hs => (h.toLower == n) && startsAtCI ns hs

/-- Index of the first case-insensitive match of the needle, as the
match method with an i-flag literal pattern reports it. -/
def findCI (needle : List Char) : List Char → Option Nat
  | [] => if startsAtCI needle [] then some 0 else none
  | c :: rest =>
    if startsAtCI needle (c :: rest) then some 0
    else (findCI needle rest).map (· + 1)

/-- ASCII whitespace stripped by the forgiving-base64 decode. -/
def isAsciiWS (c : Char) : Bool :=
  c == '\t' || c == '\n' || c == '\x0C' || c == '\r' || c == ' '

/-- Forgiving-base64 step 2: when the length is a multiple of four,
remove up to two trailing padding characters. -/
def stripPad (l : List Char) : List Char :=
  match l.reverse with
  | '=' :: '=' :: r => r.reverse
  | '=' :: r => r.reverse
  | _ => l

/-- Value of one character of the standard base64 alphabet. -/
def b64val (c : Char) : Option Nat :=
  if 'A' ≤ c ∧ c ≤ 'Z' then some (c.toNat - 65)
  else if 'a' ≤ c ∧ c ≤ 'z' then some (c.toNat - 71)
  else if '0' ≤ c ∧ c ≤ '9' then some (c.toNat - 48 + 52)
  else if c = '+' then some 62
  else if c = '/' then some 63
  else none

/-- Map every character to its sextet value, failing on the first
character outside the alphabet. -/
def sextets : List Char → Option (List Nat)
  | [] => some []
  | c :: rest =>
    match b64val c, sextets rest with
    | some v, some vs => some (v :: vs)
    | _, _ => none

/-- Reassemble sextets into bytes; a trailing group of two or three
sextets yields one or two bytes, discarding the leftover bits. -/
def sextetsToBytes : List Nat → List Nat
  | a :: b :: c :: d :: rest =>
    let n := ((a * 64 + b) * 64 + c) * 64 + d
    n / 65536 :: n / 256 % 256 :: n % 256 :: sextetsToBytes rest
  | [a, b] => [(a * 64 + b) / 16]
  | [a, b, c] =>
    let n := (a * 64 + b) * 64 + c
    [n / 1024, n / 4 % 256]
  | _ => []

/-- atob (App.tsx line 801): the forgiving-base64 decode, returning
none exactly where atob throws. -/
def atob (l : List Char) : Option (List Char) :=
  let l1 := l.filter (fun c => !isAsciiWS c)
  let l2 := if l1.length % 4 = 0 then stripPad l1 else l1
  if l2.length % 4 = 1 then none
  else
    match sextets l2 with
    | none => none
    | some vs => some ((sextetsToBytes vs).map Char.ofNat)

/-- Anchor token searched for at App.tsx line 788. -/
def anchorChars : List Char := "ImJvZHki".toList

/-- The case-insensitive height key pattern eigh of App.tsx line 803. -/
def eighChars : List Char := "eigh".toList

/-- The case-insensitive scale key pattern of App.tsx line 817. -/
def scaleChars : List Char := "scale".toList

/-- URL-safe alphabet substitution of App.tsx line 795: minus becomes
plus and underscore becomes slash. -/
def b64urlFix (c : Char) : Char :=
  if c == '-' then '+' else if c == '_' then '/' else c

/-- Block normalizer (App.tsx lines 795-799): substitute the alphabet,
then right-pad with the padding character when the length is not a
multiple of four. -/
def normalizeBlock (l : List Char) : List Char :=
  let r := l.map b64urlFix
  let padding := r.length % 4
  if padding = 0 then r else r ++ List.replicate (4 - padding) '='

/-- Result assembler (App.tsx lines 847-864): the fixed formula and the
bookkeeping fields, with the clock value placed in the timestamp. -/
def assemble (now : Int) (height scale : ℚ) : CalculationResult :=
  { current := 7.6 - 8.3 * scale - 3 * height
    tallest := 7.6 - 8.3 * scale - 3 * 2.0
    shortest := 7.6 - 8.3 * scale - 3 * (-2.0)
    scale := scale
    timestamp := now
    note := ""
    height_raw := height
    scale_raw := scale }

/-- Height extraction (App.tsx lines 802-814): find the key pattern
case-insensitively, then the first number-like token after it. -/
def heightFromText (d : List Char) : Except ErrorKind ℚ :=
  match findCI eighChars d with
  | none => Except.error ErrorKind.heightKeyNotFound
  | some i =>
    match scanFor matchHeightAt (d.drop (i + 4)) with
    | some v => Except.ok v
    | none => Except.error ErrorKind.heightValueNotFound

/-- The remainder of the plaintext after the height key match. -/
def heightRemainder (d : List Char) : Option (List Char) :=
  (findCI eighChars d).map (fun i => d.drop (i + 4))

/-- The three-tier scale value search (App.tsx lines 823-844) on the
remainder after the key: scientific, then plain decimal, then the
windowed bare-integer fallback. -/
def scaleTiers (area : List Char) : Except ErrorKind ℚ :=
  match scanFor sciAt area with
  | some v => Except.ok v
  | none =>
    match scanFor decAt area with
    | some v => Except.ok v
    | none =>
      match tier3 area with
      | some v => Except.ok v
      | none => Except.error ErrorKind.scaleValueNotFound

/-- Scale extraction (App.tsx lines 816-845): find the key pattern
case-insensitively, then run the tiers on the remainder. -/
def scaleFromText (d : List Char) : Except ErrorKind ℚ :=
  match findCI scaleChars d with
  | none => Except.error ErrorKind.scaleKeyNotFound
  | some i => scaleTiers (d.drop (i + 5))

/-- The remainder of the plaintext after the scale key match. -/
def scaleRemainder (d : List Char) : Option (List Char) :=
  (findCI scaleChars d).map (fun i => d.drop (i + 5))

/-- Stages of decodeAndCalculate after the anchor has been located:
normalize and decode the block, extract both fields, assemble. -/
def processBlock (now : Int) (block : List Char) : Except ErrorKind CalculationResult :=
  match atob (normalizeBlock block) with
  | none => Except.error ErrorKind.decodeFailure
  | some decoded =>
    match heightFromText decoded with
    | Except.error e => Except.error e
    | Except.ok h =>
      match scaleFromText decoded with
      | Except.error e => Except.error e
      | Except.ok s => Except.ok (assemble now h s)

/-- decodeAndCalculate (App.tsx lines 786-869): locate the anchor, then
process the suffix of the input from the anchor position on. -/
def decodeAndCalculate (now : Int) (rawData : String) : Except ErrorKind CalculationResult :=
  match findSub anchorChars rawData.toList with
  | none => Except.error ErrorKind.anchorNotFound
  | some i => processBlock now (rawData.toList.drop i)

/-- handlePotionDrink (App.tsx lines 236-251): with no prior result the
handler fails; otherwise it resamples a height from the random draw u
as u * 4.0 - 2.0 and reuses the formula with the stored scale. -/
def handlePotionDrink (lastResult : Option CalculationResult) (u : ℚ) : Except ErrorKind ℚ :=
  match lastResult with
  | none => Except.error ErrorKind.preconditionError
  | some r => Except.ok (7.6 - 8.3 * r.scale - 3 * (u * 4 - 2))

/-- Agreement of two pipeline outcomes on everything except the
timestamp field. -/
def sameExceptTimestamp :
    Except ErrorKind CalculationResult → Except ErrorKind CalculationResult → Prop
  | Except.error e1, Except.error e2 => e1 = e2
  | Except.ok r1, Except.ok r2 =>
    r1.current = r2.current ∧ r1.tallest = r2.tallest ∧ r1.shortest = r2.shortest ∧
    r1.scale = r2.scale ∧ r1.note = r2.note ∧
    r1.height_raw = r2.height_raw ∧ r1.scale_raw = r2.scale_raw
  | _, _ => False

/-- Payload whose plaintext is: "body" height 3 scale 0.5 -/
def input1 : String := "ImJvZHkiIGhlaWdodCAzIHNjYWxlIDAuNQ=="

/-- Payload whose plaintext is: "body" "height: 0.1234" "scale":1.5e-1 -/
def input5 : String := "ImJvZHkiICJoZWlnaHQ6IDAuMTIzNCIgInNjYWxlIjoxLjVlLTE="

/-- An input containing the anchor followed by a character outside the
base64 alphabet, whose padded form cannot be decoded. -/
def inputBadB64 : String := "ImJvZHki!"

/-- An input without the anchor token. -/
def inputNoAnchor : String := "hello"

/-- An input with the anchor token at index one. -/
def inputShifted : String := "xImJvZHki"

/-- Plaintext for the tier-3 counterexample: a line terminator stands
between the scale key and the digits. -/
def newlineScaleText : List Char := String.toList "scale:\n123"

/-- Plaintext with both a scientific and a plain decimal token after
the scale key. -/
def bothTiersText : List Char := String.toList "scale:1.5e-1 2.5"

/-- Plaintext with a fraction-only height token. -/
def fracHeightText : List Char := String.toList "height .5"

/-- Plaintext with a bare integer height token. -/
def intHeightText : List Char := String.toList "height 42"

/-- Plaintext reaching the bare-integer scale fallback. -/
def bareIntText : List Char := String.toList "scale:123456789"

/-! Helper lemmas about the list scanners. -/

theorem takeWhile_eq_nil_of {p : Char → Bool} {l : List Char}
    (h : ∀ c ∈ l, p c = false) : l.takeWhile p = [] := by
  cases l with
  | nil => rfl
  | cons a t => simp [List.takeWhile_cons, h a (List.mem_cons_self a t)]

theorem dropWhile_eq_self_of {p : Char → Bool} {l : List Char}
    (h : ∀ c ∈ l, p c = false) : l.dropWhile p = l := by
  cases l with
  | nil => rfl
  | cons a t => simp [List.dropWhile_cons, h a (List.mem_cons_self a t)]

theorem mem_of_mem_tailQ {c : Char} : ∀ {l : List Char}, c ∈ l.tail → c ∈ l := by
  intro l h
  cases l with
  | nil => exact absurd h (List.not_mem_nil c)
  | cons a t => exact List.mem_cons_of_mem a h

theorem splitSign_mem {c : Char} {l : List Char}
    (h : c ∈ (splitSign l).2) : c ∈ l := by
  unfold splitSign at h
  split at h
  · exact mem_of_mem_tailQ h
  · exact h

theorem altFrac_none_of_noDigit {l : List Char}
    (h : ∀ c ∈ l, c.isDigit = false) : altFrac l = none := by
  have h2 : ∀ c ∈ (splitSign l).2, c.isDigit = false :=
    fun c hc => h c (splitSign_mem hc)
  have hdw : (splitSign l).2.dropWhile Char.isDigit = (splitSign l).2 :=
    dropWhile_eq_self_of h2
  have ht : (splitSign l).2.tail.takeWhile Char.isDigit = [] :=
    takeWhile_eq_nil_of (fun c hc => h2 c (mem_of_mem_tailQ hc))
  unfold altFrac
  rw [hdw, ht]
  simp

theorem altInt_none_of_noDigit {l : List Char}
    (h : ∀ c ∈ l, c.isDigit = false) : altInt l = none := by
  have h2 : ∀ c ∈ (splitSign l).2, c.isDigit = false :=
    fun c hc => h c (splitSign_mem hc)
  have ht : (splitSign l).2.takeWhile Char.isDigit = [] := takeWhile_eq_nil_of h2
  unfold altInt
  rw [ht]
  simp

theorem matchHeightAt_none_of_noDigit {l : List Char}
    (h : ∀ c ∈ l, c.isDigit = false) : matchHeightAt l = none := by
  unfold matchHeightAt
  rw [altFrac_none_of_noDigit h, altInt_none_of_noDigit h]

theorem scanHeight_none_of_noDigit : ∀ {l : List Char},
    (∀ c ∈ l, c.isDigit = false) → scanFor matchHeightAt l = none := by
  intro l
  induction l with
  | nil => intro _; rfl
  | cons c rest ih =>
    intro h
    have hm := matchHeightAt_none_of_noDigit h
    simp only [scanFor, hm]
    exact ih (fun x hx => h x (List.mem_cons_of_mem c hx))

theorem matchHeightAt_cons_digit {c : Char} {rest : List Char}
    (hc : c.isDigit = true) : (matchHeightAt (c :: rest)).isSome = true := by
  have hne : c ≠ '-' := by
    intro e
    rw [e] at hc
    exact absurd hc (by decide)
  have hsplit : splitSign (c :: rest) = (false, c :: rest) := by
    simp [splitSign, hne]
  have hds : (splitSign (c :: rest)).2.takeWhile Char.isDigit
      = c :: rest.takeWhile Char.isDigit := by
    rw [hsplit]
    simp [List.takeWhile_cons, hc]
  unfold matchHeightAt
  cases haf : altFrac (c :: rest) with
  | some v => rfl
  | none =>
    unfold altInt
    rw [hds]
    simp only [List.isEmpty_cons]
    rw [if_neg Bool.false_ne_true]
    split <;> rfl

theorem scanHeight_isSome_of_digit : ∀ {l : List Char},
    l.any Char.isDigit = true → (scanFor matchHeightAt l).isSome = true := by
  intro l
  induction l with
  | nil => intro h; simp at h
  | cons c rest ih =>
    intro h
    rw [List.any_cons] at h
    cases hc : c.isDigit with
    | true =>
      have hm := @matchHeightAt_cons_digit c rest hc
      simp only [scanFor]
      cases hmm : matchHeightAt (c :: rest) with
      | some v => simp
      | none => rw [hmm] at hm; simp at hm
    | false =>
      rw [hc] at h
      simp only [Bool.false_or] at h
      have hr := ih h
      simp only [scanFor]
      cases hmm : matchHeightAt (c :: rest) with
      | some v => simp
      | none => exact hr

theorem findSub_none_starts (needle : List Char) : ∀ (l : List Char),
    findSub needle l = none → ∀ i, startsAtEx needle (List.drop i l) = false := by
  intro l
  induction l with
  | nil =>
    intro h i
    rw [List.drop_nil]
    cases hs : startsAtEx needle [] with
    | false => rfl
    | true =>
      unfold findSub at h
      rw [hs] at h
      simp at h
  | cons c rest ih =>
    intro h i
    unfold findSub at h
    cases hs : startsAtEx needle (c :: rest) with
    | true => rw [hs] at h; simp at h
    | false =>
      rw [hs] at h
      simp only [Bool.false_eq_true, if_false] at h
      have hrest : findSub needle rest = none := by
        cases hm : findSub needle rest with
        | none => rfl
        | some j => rw [hm] at h; simp at h
      cases i with
      | zero => exact hs
      | succ j =>
        rw [List.drop_succ_cons]
        exact ih hrest j

theorem starts_findSub_none (needle : List Char) : ∀ (l : List Char),
    (∀ i, startsAtEx needle (List.drop i l) = false) → findSub needle l = none := by
  intro l
  induction l with
  | nil =>
    intro h
    have h0 := h 0
    rw [List.drop_zero] at h0
    unfold findSub
    rw [h0]
    simp
  | cons c rest ih =>
    intro h
    have h0 := h 0
    rw [List.drop_zero] at h0
    have hrest : findSub needle rest = none :=
      ih (fun i => by have := h (i + 1); rwa [List.drop_succ_cons] at this)
    unfold findSub
    rw [h0, hrest]
    simp

theorem findSub_some_starts (needle : List Char) : ∀ (l : List Char) (i : Nat),
    findSub needle l = some i → startsAtEx needle (List.drop i l) = true := by
  intro l
  induction l with
  | nil =>
    intro i h
    unfold findSub at h
    cases hs : startsAtEx needle [] with
    | true =>
      rw [hs] at h
      simp at h
      rw [← h, List.drop_nil]
      exact hs
    | false => rw [hs] at h; simp at h
  | cons c rest ih =>
    intro i h
    unfold findSub at h
    cases hs : startsAtEx needle (c :: rest) with
    | true =>
      rw [hs] at h
      simp at h
      rw [← h, List.drop_zero]
      exact hs
    | false =>
      rw [hs] at h
      simp only [Bool.false_eq_true, if_false] at h
      cases hm : findSub needle rest with
      | none => rw [hm] at h; simp at h
      | some j =>
        rw [hm] at h
        simp at h
        rw [← h, List.drop_succ_cons]
        exact ih j hm

theorem tier3go_eq_spec : ∀ (w : List Char),
    tier3go w = match w.dropWhile (fun c => !c.isDigit && !isLineTerm c) with
      | [] => none
      | c :: rest => if c.isDigit then some (tier3Val (c :: rest)) else none := by
  intro w
  induction w with
  | nil => rfl
  | cons c rest ih =>
    rw [List.dropWhile_cons]
    cases hd : c.isDigit with
    | true =>
      simp only [hd, Bool.not_true, Bool.false_and, if_neg Bool.false_ne_true]
      unfold tier3go
      rw [hd]
      simp
    | false =>
      cases hl : isLineTerm c with
      | true =>
        simp only [hd, hl, Bool.not_true, Bool.and_false, if_neg Bool.false_ne_true]
        unfold tier3go
        rw [hd, hl]
        simp
      | false =>
        simp only [hd, hl, Bool.not_false, Bool.and_self, if_pos rfl]
        unfold tier3go
        rw [hd, hl]
        simp only [if_neg Bool.false_ne_true]
        exact ih

theorem tier3_eq_spec (l : List Char) : tier3 l = tier3Spec l := by
  unfold tier3 tier3Spec
  exact tier3go_eq_spec (l.take 30)

theorem processBlock_ok_assemble {now : Int} {b : List Char} {r : CalculationResult}
    (h : processBlock now b = Except.ok r) : ∃ hh ss, r = assemble now hh ss := by
  unfold processBlock at h
  split at h
  · cases h
  · split at h
    · cases h
    · split at h
      · cases h
      · injection h with h
        exact ⟨_, _, h.symm⟩

theorem dac_ok_assemble {now : Int} {raw : String} {r : CalculationResult}
    (h : decodeAndCalculate now raw = Except.ok r) : ∃ hh ss, r = assemble now hh ss := by
  unfold decodeAndCalculate at h
  split at h
  · cases h
  · exact processBlock_ok_assemble h

theorem processBlock_agree (t1 t2 : Int) (b : List Char) :
    sameExceptTimestamp (processBlock t1 b) (processBlock t2 b) := by
  unfold processBlock
  cases hA : atob (normalizeBlock b) with
  | none => simp [hA, sameExceptTimestamp]
  | some decoded =>
    cases hH : heightFromText decoded with
    | error e => simp [hA, hH, sameExceptTimestamp]
    | ok hh =>
      cases hS : scaleFromText decoded with
      | error e => simp [hA, hH, hS, sameExceptTimestamp]
      | ok ss => simp [hA, hH, hS, sameExceptTimestamp, assemble]

theorem processBlock_timestamp {t : Int} {b : List Char} {r : CalculationResult}
    (h : processBlock t b = Except.ok r) : r.timestamp = t := by
  obtain ⟨hh, ss, rfl⟩ := processBlock_ok_assemble h
  rfl

/-! Claim theorems. -/

/-- C1: for every successfully decoded input with extracted height h and
extracted scale s, decodeAndCalculate returns current = 7.6 - 8.3*s - 3*h,
shortest = 7.6 - 8.3*s - 3*(-2.0) and tallest = 7.6 - 8.3*s - 3*(+2.0);
shortest and tallest depend only on s, no clamping is applied, and a
height outside the band yields a current outside the two bounds. -/
theorem c1_formula (now : Int) (raw : String) (r : CalculationResult)
    (h : decodeAndCalculate now raw = Except.ok r) :
    r.current = 7.6 - 8.3 * r.scale_raw - 3 * r.height_raw
    ∧ r.shortest = 7.6 - 8.3 * r.scale_raw - 3 * (-2.0)
    ∧ r.tallest = 7.6 - 8.3 * r.scale_raw - 3 * 2.0
    ∧ (2 < r.height_raw ∨ r.height_raw < -2 →
        r.current < r.tallest ∨ r.shortest < r.current) := by
  obtain ⟨hh, ss, rfl⟩ := dac_ok_assemble h
  refine ⟨rfl, rfl, rfl, ?_⟩
  have hcur : (assemble now hh ss).current = 7.6 - 8.3 * ss - 3 * hh := rfl
  have htal : (assemble now hh ss).tallest = 7.6 - 8.3 * ss - 3 * 2.0 := rfl
  have hsho : (assemble now hh ss).shortest = 7.6 - 8.3 * ss - 3 * (-2.0) := rfl
  have hhr : (assemble now hh ss).height_raw = hh := rfl
  rw [hcur, htal, hsho, hhr]
  have h2 : (2.0 : ℚ) = 2 := by norm_num
  rw [h2]
  rintro (hgt | hlt)
  · left; linarith
  · right; linarith

/-- Witness for C1 at the payload with height 3 and scale 0.5: the
formula holds and the out-of-band height puts current below tallest. -/
theorem c1_formula_witness :
    (assemble 0 3 (1/2)).current
      = 7.6 - 8.3 * (assemble 0 3 (1/2)).scale_raw - 3 * (assemble 0 3 (1/2)).height_raw
    ∧ ((assemble 0 3 (1/2)).current < (assemble 0 3 (1/2)).tallest
        ∨ (assemble 0 3 (1/2)).shortest < (assemble 0 3 (1/2)).current) := by
  have h := c1_formula 0 input1 (assemble 0 3 (1/2)) (by rfl)
  exact ⟨h.1, h.2.2.2 (Or.inl (by norm_num [assemble]))⟩

/-- C2: decodeAndCalculate is total: for every input it returns exactly
one of a success record and an error kind, never both, and the anchored
but malformed base64 input yields the decode failure, not an exception. -/
theorem c2_total (now : Int) (raw : String) :
    ((∃ r, decodeAndCalculate now raw = Except.ok r)
      ∨ (∃ e, decodeAndCalculate now raw = Except.error e))
    ∧ (∀ e r, decodeAndCalculate now raw = Except.error e →
        decodeAndCalculate now raw ≠ Except.ok r)
    ∧ decodeAndCalculate now inputBadB64 = Except.error ErrorKind.decodeFailure := by
  refine ⟨?_, ?_, by rfl⟩
  · cases h : decodeAndCalculate now raw with
    | ok r => exact Or.inl ⟨r, rfl⟩
    | error e => exact Or.inr ⟨e, rfl⟩
  · intro e r h1 h2
    rw [h1] at h2
    cases h2

/-- Witness for C2: an anchorless input is not a success, and the
malformed base64 input decodes to the decode failure. -/
theorem c2_total_witness :
    decodeAndCalculate 0 inputNoAnchor ≠ Except.ok (assemble 0 0 0)
    ∧ decodeAndCalculate 0 inputBadB64 = Except.error ErrorKind.decodeFailure :=
  ⟨(c2_total 0 inputNoAnchor).2.1 ErrorKind.anchorNotFound (assemble 0 0 0) (by rfl),
   (c2_total 0 inputBadB64).2.2⟩

/-- C3 counterexample: on the plaintext whose scale key is followed by a
line terminator before the digits, all three tiers fail, although the
claim asserts the bare-integer tier skips any leading non-digit
characters, which would give 123 / 1e9. -/
theorem c3_counterexample :
    scaleFromText newlineScaleText = Except.error ErrorKind.scaleValueNotFound
    ∧ tier3 ((":\n123").toList) = none := ⟨rfl, rfl⟩

/-- C3 (amended): the three scale grammars are tried in order with the
stated values and precedence, and the pipeline returns the
scale-value-not-found failure when all three fail; the bare-integer
tier skips leading non-digit characters only while none of them is a
line terminator, as the dot of the source regex cannot match one. -/
theorem c3_scale_tiers (d rem : List Char) (h : scaleRemainder d = some rem) :
    (∀ v, scanFor sciAt rem = some v → scaleFromText d = Except.ok v)
    ∧ (∀ v, scanFor sciAt rem = none → scanFor decAt rem = some v →
        scaleFromText d = Except.ok v)
    ∧ (∀ v, scanFor sciAt rem = none → scanFor decAt rem = none →
        tier3 rem = some v → scaleFromText d = Except.ok v)
    ∧ (scanFor sciAt rem = none → scanFor decAt rem = none → tier3 rem = none →
        scaleFromText d = Except.error ErrorKind.scaleValueNotFound)
    ∧ tier3 rem = tier3Spec rem := by
  unfold scaleRemainder at h
  cases hF : findCI scaleChars d with
  | none => rw [hF] at h; cases h
  | some i =>
    rw [hF] at h
    simp only [Option.map_some'] at h
    injection h with h
    subst h
    have hd : scaleFromText d = scaleTiers (d.drop (i + 5)) := by
      unfold scaleFromText
      rw [hF]
    refine ⟨?_, ?_, ?_, ?_, tier3_eq_spec _⟩
    · intro v hv
      rw [hd]
      unfold scaleTiers
      rw [hv]
    · intro v h1 h2
      rw [hd]
      unfold scaleTiers
      rw [h1, h2]
    · intro v h1 h2 h3
      rw [hd]
      unfold scaleTiers
      rw [h1, h2, h3]
    · intro h1 h2 h3
      rw [hd]
      unfold scaleTiers
      rw [h1, h2, h3]

/-- Witness for C3: the scientific tier wins although a plain decimal
token is also present; the bare-integer tier fires on the spec example;
the all-tiers-fail path returns the scale-value failure. -/
theorem c3_scale_tiers_witness :
    scaleFromText bothTiersText = Except.ok (3/20)
    ∧ scanFor decAt ((":1.5e-1 2.5").toList) = some (3/2)
    ∧ scaleFromText bareIntText = Except.ok (123456789/1000000000)
    ∧ scaleFromText newlineScaleText = Except.error ErrorKind.scaleValueNotFound := by
  refine ⟨?_, by rfl, ?_, ?_⟩
  · exact (c3_scale_tiers bothTiersText ((":1.5e-1 2.5").toList) (by rfl)).1
      (3/20) (by rfl)
  · exact (c3_scale_tiers bareIntText ((":123456789").toList) (by rfl)).2.2.1
      (123456789/1000000000) (by rfl) (by rfl) (by rfl)
  · exact (c3_scale_tiers newlineScaleText ((":\n123").toList) (by rfl)).2.2.2.1
      (by rfl) (by rfl) (by rfl)

/-- C4: every successful result satisfies shortest = 7.6 - 8.3*s + 6 and
tallest = 7.6 - 8.3*s - 6, so the field named shortest is strictly
greater than the field named tallest. -/
theorem c4_ordering (now : Int) (raw : String) (r : CalculationResult)
    (h : decodeAndCalculate now raw = Except.ok r) :
    r.tallest < r.shortest
    ∧ r.shortest = 7.6 - 8.3 * r.scale + 6
    ∧ r.tallest = 7.6 - 8.3 * r.scale - 6 := by
  obtain ⟨hh, ss, rfl⟩ := dac_ok_assemble h
  have htal : (assemble now hh ss).tallest = 7.6 - 8.3 * ss - 3 * 2.0 := rfl
  have hsho : (assemble now hh ss).shortest = 7.6 - 8.3 * ss - 3 * (-2.0) := rfl
  have hsc : (assemble now hh ss).scale = ss := rfl
  rw [htal, hsho, hsc]
  refine ⟨?_, by norm_num, by norm_num⟩
  norm_num
  linarith


/-- Witness for C4 at the payload with scale 0.5. -/
theorem c4_ordering_witness :
    (assemble 0 3 (1/2)).tallest < (assemble 0 3 (1/2)).shortest :=
  (c4_ordering 0 input1 (assemble 0 3 (1/2)) (by rfl)).1

/-- C5 counterexample: on the well-formed payload of the claim the
pipeline extracts height 0.1234 and scale 0.15 as claimed, but current
is 5.9848, which differs from the claimed approximation 6.0868 by
0.102, far beyond the precision of the four displayed decimals. -/
theorem c5_counterexample :
    decodeAndCalculate 0 input5 = Except.ok (assemble 0 0.1234 0.15)
    ∧ (6.0868 : ℚ) - (assemble 0 0.1234 0.15).current = 51/500
    ∧ (1/100 : ℚ) < 51/500 := by
  refine ⟨by rfl, ?_, by norm_num⟩
  have hc : (assemble 0 0.1234 0.15).current = 7.6 - 8.3 * 0.15 - 3 * 0.1234 := rfl
  rw [hc]
  norm_num

/-- C5 (amended): on the well-formed payload the pipeline extracts
height 0.1234 and scale 0.15 and returns
current = 7.6 - 8.3*0.15 - 3*0.1234 = 5.9848. -/
theorem c5_sample (ts : Int) :
    decodeAndCalculate ts input5 = Except.ok
      { current := 5.9848
        tallest := 7.6 - 8.3 * 0.15 - 3 * 2.0
        shortest := 7.6 - 8.3 * 0.15 - 3 * (-2.0)
        scale := 0.15
        timestamp := ts
        note := ""
        height_raw := 0.1234
        scale_raw := 0.15 } := by
  rfl

/-- C6: without the anchor token the pipeline fails with the anchor
error and no decoding stage runs; with the anchor at index i the block
handed to normalization and decoding is the suffix from i on, which
still carries the anchor as its head. -/
theorem c6_anchor (now : Int) (raw : String) :
    (findSub anchorChars raw.toList = none →
      decodeAndCalculate now raw = Except.error ErrorKind.anchorNotFound)
    ∧ (findSub anchorChars raw.toList = none ↔
        ∀ i, startsAtEx anchorChars (raw.toList.drop i) = false)
    ∧ (∀ i, findSub anchorChars raw.toList = some i →
        startsAtEx anchorChars (raw.toList.drop i) = true
        ∧ decodeAndCalculate now raw = processBlock now (raw.toList.drop i)) := by
  refine ⟨?_, ⟨findSub_none_starts _ _, starts_findSub_none _ _⟩, ?_⟩
  · intro h
    unfold decodeAndCalculate
    rw [h]
  · intro i h
    refine ⟨findSub_some_starts _ _ i h, ?_⟩
    unfold decodeAndCalculate
    rw [h]

/-- Witness for C6: the anchorless input fails with the anchor error,
and an input with the anchor at index one is processed on the suffix
from that index, which starts with the anchor. -/
theorem c6_anchor_witness :
    decodeAndCalculate 0 inputNoAnchor = Except.error ErrorKind.anchorNotFound
    ∧ startsAtEx anchorChars (inputShifted.toList.drop 1) = true
    ∧ decodeAndCalculate 0 inputShifted = processBlock 0 (inputShifted.toList.drop 1) := by
  refine ⟨(c6_anchor 0 inputNoAnchor).1 (by rfl), ?_, ?_⟩
  · exact ((c6_anchor 0 inputShifted).2.2 1 (by rfl)).1
  · exact ((c6_anchor 0 inputShifted).2.2 1 (by rfl)).2

/-- C7: two runs on the same input agree on every output except the
timestamp, and a successful run stamps exactly the clock value it was
invoked with. -/
theorem c7_deterministic (t1 t2 : Int) (raw : String) :
    sameExceptTimestamp (decodeAndCalculate t1 raw) (decodeAndCalculate t2 raw)
    ∧ (∀ r, decodeAndCalculate t1 raw = Except.ok r → r.timestamp = t1) := by
  constructor
  · unfold decodeAndCalculate
    cases hF : findSub anchorChars raw.toList with
    | none => simp [sameExceptTimestamp]
    | some i => exact processBlock_agree t1 t2 _
  · intro r h
    unfold decodeAndCalculate at h
    split at h
    · cases h
    · exact processBlock_timestamp h

/-- Witness for C7 on the concrete payload, with clocks 5 and 9. -/
theorem c7_deterministic_witness :
    sameExceptTimestamp (decodeAndCalculate 5 input1) (decodeAndCalculate 9 input1)
    ∧ (assemble 5 3 (1/2)).timestamp = 5 := by
  refine ⟨(c7_deterministic 5 9 input1).1, ?_⟩
  exact (c7_deterministic 5 9 input1).2 (assemble 5 3 (1/2)) (by rfl)

/-- C8: block normalization substitutes the URL-safe characters and
right-pads to a multiple of four; it is a total string rewrite and its
output length is always a multiple of four. -/
theorem c8_normalize (l : List Char) :
    normalizeBlock l = l.map b64urlFix ++ List.replicate ((4 - l.length % 4) % 4) '='
    ∧ (normalizeBlock l).length % 4 = 0
    ∧ b64urlFix '-' = '+' ∧ b64urlFix '_' = '/'
    ∧ (∀ c, c ≠ '-' → c ≠ '_' → b64urlFix c = c) := by
  have hlen : (l.map b64urlFix).length = l.length := List.length_map l b64urlFix
  have heq : normalizeBlock l
      = l.map b64urlFix ++ List.replicate ((4 - l.length % 4) % 4) '=' := by
    simp only [normalizeBlock]
    by_cases h0 : (l.map b64urlFix).length % 4 = 0
    · rw [if_pos h0]
      have h1 : (4 - l.length % 4) % 4 = 0 := by
        rw [hlen] at h0
        omega
      rw [h1]
      simp
    · rw [if_neg h0]
      have h2 : (4 - l.length % 4) % 4 = 4 - (l.map b64urlFix).length % 4 := by
        rw [hlen]
        rw [hlen] at h0
        omega
      rw [h2]
  refine ⟨heq, ?_, by decide, by decide, ?_⟩
  · rw [heq, List.length_append, List.length_replicate, hlen]
    omega
  · intro c h1 h2
    simp [b64urlFix, h1, h2]

/-- Witness for C8: a mixed block is rewritten and padded, and an
ordinary character is left unchanged. -/
theorem c8_normalize_witness :
    normalizeBlock (("a-_").toList) = ("a+/=").toList ∧ b64urlFix 'x' = 'x' := by
  constructor
  · rw [(c8_normalize (("a-_").toList)).1]
    rfl
  · exact (c8_normalize []).2.2.2.2 'x' (by decide) (by decide)

/-- C9: the simulation with no prior result fails with the precondition
error and yields no number; with a prior result of scale s and a random
draw u in the unit interval it returns 7.6 - 8.3*s - 3*h for the fresh
height h = u*4 - 2, which lies in the band from -2 inclusive to 2
exclusive; the handler is a pure function of its two arguments. -/
theorem c9_potion (u : ℚ) (h0 : 0 ≤ u) (h1 : u < 1) :
    handlePotionDrink none u = Except.error ErrorKind.preconditionError
    ∧ (∀ r, handlePotionDrink (some r) u =
        Except.ok (7.6 - 8.3 * r.scale - 3 * (u * 4 - 2)))
    ∧ -2 ≤ u * 4 - 2 ∧ u * 4 - 2 < 2 := by
  refine ⟨rfl, fun r => rfl, by linarith, by linarith⟩

/-- Witness for C9 at the draw one half. -/
theorem c9_potion_witness :
    handlePotionDrink none (1/2) = Except.error ErrorKind.preconditionError
    ∧ handlePotionDrink (some (assemble 0 3 (1/2))) (1/2) =
        Except.ok (7.6 - 8.3 * (assemble 0 3 (1/2)).scale - 3 * ((1/2 : ℚ) * 4 - 2))
    ∧ -2 ≤ (1/2 : ℚ) * 4 - 2 ∧ (1/2 : ℚ) * 4 - 2 < 2 := by
  have h := c9_potion (1/2) (by norm_num) (by norm_num)
  exact ⟨h.1, h.2.1 (assemble 0 3 (1/2)), h.2.2.1, h.2.2.2⟩

/-- C10: once the height key is found, height extraction succeeds
exactly when a decimal digit occurs somewhere in the remainder after
the key, failing with the height-value error otherwise; the grammar
also accepts a bare integer and a fraction-only token. -/
theorem c10_height (d rem : List Char) (h : heightRemainder d = some rem) :
    ((∃ v, heightFromText d = Except.ok v) ↔ rem.any Char.isDigit = true)
    ∧ (rem.any Char.isDigit = false →
        heightFromText d = Except.error ErrorKind.heightValueNotFound)
    ∧ heightFromText fracHeightText = Except.ok (1/2)
    ∧ heightFromText intHeightText = Except.ok 42 := by
  unfold heightRemainder at h
  cases hF : findCI eighChars d with
  | none => rw [hF] at h; cases h
  | some i =>
    rw [hF] at h
    simp only [Option.map_some'] at h
    injection h with h
    subst h
    have hd : ∀ o, scanFor matchHeightAt (d.drop (i + 4)) = o →
        heightFromText d = (match o with
          | some v => Except.ok v
          | none => Except.error ErrorKind.heightValueNotFound) := by
      intro o ho
      unfold heightFromText
      rw [hF]
      cases o with
      | some v =>
        show (match scanFor matchHeightAt (List.drop (i + 4) d) with
          | some v => Except.ok v
          | none => Except.error ErrorKind.heightValueNotFound) = Except.ok v
        rw [ho]
      | none =>
        show (match scanFor matchHeightAt (List.drop (i + 4) d) with
          | some v => Except.ok v
          | none => Except.error ErrorKind.heightValueNotFound)
          = Except.error ErrorKind.heightValueNotFound
        rw [ho]
    refine ⟨⟨?_, ?_⟩, ?_, by rfl, by rfl⟩
    · rintro ⟨v, hv⟩
      cases hx : (d.drop (i + 4)).any Char.isDigit with
      | true => rfl
      | false =>
        have hall : ∀ c ∈ d.drop (i + 4), c.isDigit = false := by
          intro c hc
          cases hcd : c.isDigit with
          | false => rfl
          | true =>
            have : (d.drop (i + 4)).any Char.isDigit = true :=
              List.any_eq_true.mpr ⟨c, hc, hcd⟩
            rw [hx] at this
            cases this
        have hnone := scanHeight_none_of_noDigit hall
        rw [hd none hnone] at hv
        cases hv
    · intro hany
      obtain ⟨v, hv⟩ := Option.isSome_iff_exists.mp (scanHeight_isSome_of_digit hany)
      exact ⟨v, hd (some v) hv⟩
    · intro hfalse
      have hall : ∀ c ∈ d.drop (i + 4), c.isDigit = false := by
        intro c hc
        cases hcd : c.isDigit with
        | false => rfl
        | true =>
          have : (d.drop (i + 4)).any Char.isDigit = true :=
            List.any_eq_true.mpr ⟨c, hc, hcd⟩
          rw [hfalse] at this
          cases this
      exact hd none (scanHeight_none_of_noDigit hall)

/-- Witness for C10: the fraction-only plaintext succeeds, the bare
integer plaintext succeeds through the digit criterion, and a
digitless remainder fails with the height-value error. -/
theorem c10_height_witness :
    heightFromText fracHeightText = Except.ok (1/2)
    ∧ (∃ v, heightFromText intHeightText = Except.ok v)
    ∧ heightFromText (("height: abc").toList)
        = Except.error ErrorKind.heightValueNotFound := by
  have h1 := c10_height intHeightText (("t 42").toList) (by rfl)
  have h2 := c10_height (("height: abc").toList) (("t: abc").toList) (by rfl)
  exact ⟨h1.2.2.1, h1.1.mpr (by decide), h2.2.1 (by decide)⟩
